import Mathlib

/-!
Shallow embedding of the `simple-json2` parser (src/parser.rs, src/json.rs)
and proofs about its specification.

Conventions: the input `&str` is modelled as a `List Char`; Rust byte
indexing into `str` is modelled via UTF-8 byte sizes of characters;
`Result` is `Except`; machine integers are `Nat`/`Int` (no claim here
depends on overflow); a Rust panic (from `Option::unwrap`) is modelled as
a distinguished error value, later proved unreachable.
-/

namespace SimpleJson2

/-- Modelled from the spec (impls.rs is not under src/): a position is a
linear index (count of characters consumed), a line and a column;
advancing by one character updates line/column per newline semantics
(newline increments line and resets column, otherwise column increments). -/
structure SimplePosition where
  index : Nat
  line : Nat
  column : Nat
deriving DecidableEq, Repr

/-- Modelled from the spec: advancing a position by one character. -/
def SimplePosition.next (p : SimplePosition) (c : Char) : SimplePosition :=
  if c = '\n' then ⟨p.index + 1, p.line + 1, 0⟩
  else ⟨p.index + 1, p.line, p.column + 1⟩

/-- Modelled from the spec (impls.rs is not under src/): an error is an
ordered, append-only sequence of (optional position, reason label) pairs. -/
structure SimpleError where
  reasons : List (Option SimplePosition × String)
deriving DecidableEq, Repr

/-- Modelled from the spec: `add_reason` appends one more (position, reason)
pair at the end of the trail (outermost label last). -/
def SimpleError.addReason (e : SimpleError) (p : Option SimplePosition)
    (r : String) : SimpleError :=
  ⟨e.reasons ++ [(p, r)]⟩

/-- Modelled from the spec: construction from a single reason with no
position (`Error::plain_str`). -/
def SimpleError.plainStr (r : String) : SimpleError := ⟨[(none, r)]⟩

/-- `error_at` from the `Input for &str` impl (parser.rs): a fresh
single-entry diagnostic trail. -/
def errorAt (pos : SimplePosition) (r : String) : SimpleError :=
  ⟨[(some pos, r)]⟩

/-- UTF-8 byte width of a character, as Rust encodes `char` into `str`. -/
def charUtf8Size (c : Char) : Nat :=
  if c.toNat < 0x80 then 1
  else if c.toNat < 0x800 then 2
  else if c.toNat < 0x10000 then 3
  else 4

/-- Take exactly `n` UTF-8 bytes from the front of a character list,
succeeding only if `n` lands on a character boundary (models the end of a
`str::get` byte range). -/
def takeBytes : List Char → Nat → Option (List Char)
  | _, 0 => some []
  | [], _ + 1 => none
  | c :: cs, n + 1 =>
    if charUtf8Size c ≤ n + 1 then
      (takeBytes cs (n + 1 - charUtf8Size c)).map (c :: ·)
    else none

/-- Drop exactly `n` UTF-8 bytes from the front of a character list,
succeeding only if `n` lands on a character boundary (models the start of
a `str::get` byte range). -/
def dropBytes : List Char → Nat → Option (List Char)
  | l, 0 => some l
  | [], _ + 1 => none
  | c :: cs, n + 1 =>
    if charUtf8Size c ≤ n + 1 then dropBytes cs (n + 1 - charUtf8Size c)
    else none

/-- `str::get` with a byte range `a..b`: `some` slice iff both ends are
in bounds and on character boundaries. -/
def strGet (s : List Char) (a b : Nat) : Option (List Char) :=
  if a ≤ b then (dropBytes s a).bind (fun t => takeBytes t (b - a))
  else none

/-- `<&str as Input>::next` (parser.rs): `self.chars().nth(pos.index())`,
advancing the position past the read character; out-of-bounds error
otherwise. -/
def inputNext (s : List Char) (pos : SimplePosition) :
    Except SimpleError (Char × SimplePosition) :=
  match s[pos.index]? with
  | some c => .ok (c, pos.next c)
  | none => .error (errorAt pos "Out of bounds")

/-- `<&str as Input>::next_range` (parser.rs): `self.get(start_index ..
start_index + counts)` — a BYTE range starting at the position's index —
advancing the position past each character of the returned slice. -/
def inputNextRange (s : List Char) (start : SimplePosition) (counts : Nat) :
    Except SimpleError (List Char × SimplePosition) :=
  match strGet s start.index (start.index + counts) with
  | some sub => .ok (sub, sub.foldl SimplePosition.next start)
  | none => .error (errorAt start "Out of bounds")

/-- A parser in the sense of `trait Parser<I>`: a pure function of the
input and the current position. -/
abbrev P (α : Type) :=
  List Char → SimplePosition → Except SimpleError (α × SimplePosition)

/-- `enum Either<A, B>` from parser.rs. -/
inductive Either (α β : Type) where
  | A (a : α)
  | B (b : β)
deriving DecidableEq, Repr

/-- `ExpectChar<P>` (parser.rs): read one character, succeed iff the
predicate accepts it; errors are tagged "ExpectChar" at the start
position. -/
def expectChar (pred : Char → Bool) : P Char := fun s current =>
  match inputNext s current with
  | .error e => .error (e.addReason (some current) "ExpectChar")
  | .ok (c, next) =>
    if pred c then .ok (c, next) else .error (errorAt current "ExpectChar")

/-- `Null` (parser.rs): always succeeds, consumes nothing. -/
def nullP : P Unit := fun _ current => .ok ((), current)

/-- `Concat<P, P2>` (parser.rs): run the first parser, then the second at
the resulting position; failures are tagged "Concat1"/"Concat2" at the
start position. -/
def concatP (p : P α) (q : P β) : P (α × β) := fun s current =>
  match p s current with
  | .error e => .error (e.addReason (some current) "Concat1")
  | .ok (o1, pos) =>
    match q s pos with
    | .error e => .error (e.addReason (some current) "Concat2")
    | .ok (o2, pos2) => .ok ((o1, o2), pos2)

/-- `OneOf<P, P2>` (parser.rs): try the first parser at the current
position; on failure try the second at the same position; if both fail,
return the second error tagged "OneOf" (the first error is discarded). -/
def oneOfP (p : P α) (q : P β) : P (Either α β) := fun s current =>
  match p s current with
  | .ok (o, pos) => .ok (.A o, pos)
  | .error _ =>
    match q s current with
    | .ok (o, pos) => .ok (.B o, pos)
    | .error e => .error (e.addReason (some current) "OneOf")

/-- `ZeroOrOne<P> = OneOf<P, Null>` (parser.rs). -/
def zeroOrOneP (p : P α) : P (Either α Unit) := oneOfP p nullP

/-- Loop of `OneOrMore::parse` (parser.rs): repeatedly re-attempt the
parser at the advancing position, collecting outputs, stopping at the
first failure. The fuel argument only bounds the number of iterations;
it is instantiated large enough that it never cuts the loop short for
parsers that consume input on success. -/
def oneOrMoreAux (p : P α) (s : List Char) :
    Nat → List α → SimplePosition → List α × SimplePosition
  | 0, acc, pos => (acc, pos)
  | fuel + 1, acc, pos =>
    match p s pos with
    | .ok (o, next) => oneOrMoreAux p s fuel (acc ++ [o]) next
    | .error _ => (acc, pos)

/-- `OneOrMore<P>` (parser.rs): one hard first parse tagged "OneOrMore"
on failure, then the collecting loop. -/
def oneOrMoreP (p : P α) : P (List α) := fun s current =>
  match p s current with
  | .error e => .error (e.addReason (some current) "OneOrMore")
  | .ok (o, pos) => .ok (oneOrMoreAux p s (s.length + 1) [o] pos)

/-- `ZeroOrMore<P> = OneOf<OneOrMore<P>, Null>` (parser.rs). -/
def zeroOrMoreP (p : P α) : P (Either (List α) Unit) :=
  oneOfP (oneOrMoreP p) nullP

/-! Character classes generated by the `literals!` macro (json.rs).
Each predicate matches the Rust `match` ranges by code point
('0' = 48, '9' = 57, 'a' = 97, 'f' = 102, 'A' = 65, 'F' = 70). -/

/-- `WhitespaceChar` predicate: space, CR, LF, tab. -/
def whitespaceCharPred (c : Char) : Bool :=
  c = ' ' || c = '\u000D' || c = '\n' || c = '\t'

/-- `SignChar` predicate. -/
def signCharPred (c : Char) : Bool := c = '+' || c = '-'

/-- `NegativeSignChar` predicate. -/
def negativeSignCharPred (c : Char) : Bool := c = '-'

/-- `EChar` predicate. -/
def eCharPred (c : Char) : Bool := c = 'E' || c = 'e'

/-- `OneToNineChar` predicate: `'1' ..= '9'`. -/
def oneToNineCharPred (c : Char) : Bool := 49 ≤ c.toNat && c.toNat ≤ 57

/-- `DigitChar` predicate: `'0' ..= '9'`. -/
def digitCharPred (c : Char) : Bool := 48 ≤ c.toNat && c.toNat ≤ 57

/-- `DotChar` predicate. -/
def dotCharPred (c : Char) : Bool := c = '.'

/-- `HexChar` predicate: `'0'..='9' | 'a'..='f' | 'A'..='F'`. -/
def hexCharPred (c : Char) : Bool :=
  (48 ≤ c.toNat && c.toNat ≤ 57) || (97 ≤ c.toNat && c.toNat ≤ 102) ||
    (65 ≤ c.toNat && c.toNat ≤ 70)

/-- `DoubleQuoteChar` predicate. -/
def doubleQuoteCharPred (c : Char) : Bool := c = '"'

/-- `OpenCurlyBracketChar` predicate. -/
def openCurlyCharPred (c : Char) : Bool := c.toNat = 123

/-- `CloseCurlyBracketChar` predicate. -/
def closeCurlyCharPred (c : Char) : Bool := c.toNat = 125

/-- `CommaChar` predicate. -/
def commaCharPred (c : Char) : Bool := c = ','

/-- `OpenSquareBracketChar` predicate. -/
def openSquareCharPred (c : Char) : Bool := c = '['

/-- `CloseSquareBracketChar` predicate. -/
def closeSquareCharPred (c : Char) : Bool := c = ']'

/-- `Whitespace = ZeroOrMore<WhitespaceChar>` (json.rs). -/
def whitespaceP : P (Either (List Char) Unit) :=
  zeroOrMoreP (expectChar whitespaceCharPred)

/-- `Sign = ZeroOrOne<SignChar>` (json.rs). -/
def signP : P (Either Char Unit) := zeroOrOneP (expectChar signCharPred)

/-- `Digits = OneOrMore<DigitChar>` (json.rs). -/
def digitsP : P (List Char) := oneOrMoreP (expectChar digitCharPred)

/-- Rust `char::to_digit` restricted to the radixes used by the source
(10 and 16): the character's value as a digit, `none` if it is not a
digit below the radix. -/
def toDigit (c : Char) (radix : Nat) : Option Nat :=
  if 48 ≤ c.toNat ∧ c.toNat ≤ 57 then
    if c.toNat - 48 < radix then some (c.toNat - 48) else none
  else if 97 ≤ c.toNat ∧ c.toNat ≤ 122 then
    if c.toNat - 87 < radix then some (c.toNat - 87) else none
  else if 65 ≤ c.toNat ∧ c.toNat ≤ 90 then
    if c.toNat - 55 < radix then some (c.toNat - 55) else none
  else none

/-- The `val *= 10; val += c.to_digit(10).unwrap()` accumulation loops of
PositiveInteger/Fraction/Exponent, with the `unwrap` panic modelled as
`none`. -/
def accumDigits (init : Nat) : List Char → Option Nat
  | [] => some init
  | c :: cs =>
    match toDigit c 10 with
    | some d => accumDigits (init * 10 + d) cs
    | none => none

/-- The modelled outcome of a Rust panic (`Option::unwrap` on `None`
inside a parser body); proved unreachable for the grammar's parsers. -/
def panicError : SimpleError := ⟨[(none, "panic: to_digit unwrap")]⟩

/-- Body of `PositiveInteger` (json.rs). -/
def positiveIntegerBody : Either (Char × List Char) Char → Option Nat
  | .A (c, cs) =>
    match toDigit c 10 with
    | some d => accumDigits d cs
    | none => none
  | .B c => toDigit c 10

/-- `PositiveInteger = OneOf<Concat<OneToNineChar, Digits>, DigitChar>`
(json.rs, `parsers!` macro: failures of the underlying parser are tagged
"PositiveInteger"). -/
def positiveIntegerP : P Nat := fun s current =>
  match oneOfP (concatP (expectChar oneToNineCharPred) digitsP)
      (expectChar digitCharPred) s current with
  | .error e => .error (e.addReason (some current) "PositiveInteger")
  | .ok (out, pos) =>
    match positiveIntegerBody out with
    | some v => .ok (v, pos)
    | none => .error panicError

/-- `NegativeInteger = Concat<NegativeSignChar, PositiveInteger>`
(json.rs): the positive integer negated. -/
def negativeIntegerP : P Int := fun s current =>
  match concatP (expectChar negativeSignCharPred) positiveIntegerP s current with
  | .error e => .error (e.addReason (some current) "NegativeInteger")
  | .ok ((_, v), pos) => .ok (-(v : Int), pos)

/-- `Integer = OneOf<PositiveInteger, NegativeInteger>` (json.rs). -/
def integerP : P Int := fun s current =>
  match oneOfP positiveIntegerP negativeIntegerP s current with
  | .error e => .error (e.addReason (some current) "Integer")
  | .ok (out, pos) =>
    match out with
    | .A a => .ok ((a : Int), pos)
    | .B b => .ok (b, pos)

/-- Body of `Fraction` (json.rs): accumulated magnitude and digit count. -/
def fractionBody : Either (Char × List Char) Unit → Option (Nat × Nat)
  | .A (_, cs) => (accumDigits 0 cs).map (fun v => (v, cs.length))
  | .B _ => some (0, 0)

/-- `Fraction = ZeroOrOne<Concat<DotChar, Digits>>` (json.rs). -/
def fractionP : P (Nat × Nat) := fun s current =>
  match zeroOrOneP (concatP (expectChar dotCharPred) digitsP) s current with
  | .error e => .error (e.addReason (some current) "Fraction")
  | .ok (out, pos) =>
    match fractionBody out with
    | some v => .ok (v, pos)
    | none => .error panicError

/-- Body of `Exponent` (json.rs): `mul` is -1 exactly when the optional
sign matched `'-'`, and the digit accumulation is multiplied by it. -/
def exponentBody (out : Either (Char × (Either Char Unit × List Char)) Unit) :
    Option Int :=
  match out with
  | .A (_, (s, cs)) =>
    let mul : Int := match s with | .A '-' => -1 | _ => 1
    (accumDigits 0 cs).map (fun v => (v : Int) * mul)
  | .B _ => some 0

/-- `Exponent = ZeroOrOne<Concat3<EChar, Sign, Digits>>` (json.rs). -/
def exponentP : P Int := fun s current =>
  match zeroOrOneP (concatP (expectChar eCharPred) (concatP signP digitsP))
      s current with
  | .error e => .error (e.addReason (some current) "Exponent")
  | .ok (out, pos) =>
    match exponentBody out with
    | some v => .ok (v, pos)
    | none => .error panicError

/-- `struct NumberValue` (json.rs): exact decomposition of a number. -/
structure NumberValue where
  integer : Int
  fraction : Nat
  fractionLength : Nat
  exponent : Int
deriving DecidableEq, Repr

/-- `impl Into<f64> for NumberValue` (json.rs), modelled exactly over ℚ:
`(integer + fraction / 10^fraction_length) * 10^exponent`. -/
def NumberValue.intoF64 (nv : NumberValue) : ℚ :=
  ((nv.integer : ℚ) + (nv.fraction : ℚ) / (10 : ℚ) ^ nv.fractionLength) *
    (10 : ℚ) ^ nv.exponent

/-- `Number = Concat3<Integer, Fraction, Exponent>` (json.rs). -/
def numberP : P NumberValue := fun s current =>
  match concatP integerP (concatP fractionP exponentP) s current with
  | .error e => .error (e.addReason (some current) "Number")
  | .ok ((n, (f, e)), pos) =>
    .ok ({ integer := n, fraction := f.1, fractionLength := f.2,
           exponent := e }, pos)

/-- `Hex = HexChar` with body `to_digit(16).unwrap()` (json.rs). -/
def hexP : P Nat := fun s current =>
  match expectChar hexCharPred s current with
  | .error e => .error (e.addReason (some current) "Hex")
  | .ok (c, pos) =>
    match toDigit c 16 with
    | some v => .ok (v, pos)
    | none => .error panicError

/-- Rust `char::try_from(u32)`: valid exactly for Unicode scalar values
(below the surrogate range or between it and 0x110000). -/
def charFromU32 (n : Nat) : Option Char :=
  if n < 0xD800 ∨ (0xE000 ≤ n ∧ n < 0x110000) then some (Char.ofNat n)
  else none

/-- `Escape` (json.rs): one of the fixed escape letters passes through as
itself; `u` reads four hex digits combined as
`b1 << 24 | b2 << 16 | b3 << 8 | b4` and converts the result to a `char`,
failing on invalid scalar values; anything else fails. -/
def escapeP : P Char := fun s current =>
  match inputNext s current with
  | .error e => .error (e.addReason (some current) "Escape")
  | .ok (c, next) =>
    if c = '"' ∨ c = '\\' ∨ c = '/' ∨ c = 'b' ∨ c = 'f' ∨ c = 'n' ∨
        c = 'r' ∨ c = 't' then .ok (c, next)
    else if c = 'u' then
      match hexP s next with
      | .error e => .error e
      | .ok (b1, next) =>
        match hexP s next with
        | .error e => .error e
        | .ok (b2, next) =>
          match hexP s next with
          | .error e => .error e
          | .ok (b3, next) =>
            match hexP s next with
            | .error e => .error e
            | .ok (b4, next) =>
              let byte := b1 <<< 24 ||| b2 <<< 16 ||| b3 <<< 8 ||| b4
              match charFromU32 byte with
              | some ch => .ok (ch, next)
              | none => .error (errorAt current "Escape")
    else .error (errorAt current "Escape")

/-- `Character` (json.rs): a backslash defers to Escape, an unescaped
double quote is a hard failure, any other character is itself. -/
def characterP : P Char := fun s current =>
  match inputNext s current with
  | .error e => .error (e.addReason (some current) "Character")
  | .ok (c, next) =>
    if c = '\\' then escapeP s next
    else if c = '"' then .error (errorAt current "Character")
    else .ok (c, next)

/-- `Characters = ZeroOrMore<Character>` (json.rs). -/
def charactersP : P (Either (List Char) Unit) := zeroOrMoreP characterP

/-- `String = Concat3<DoubleQuoteChar, Characters, DoubleQuoteChar>`
(json.rs, `parsers!` macro: failures tagged "String"); yields the decoded
characters, empty when Characters fell through to its Null branch. -/
def stringP : P (List Char) := fun s current =>
  match concatP (expectChar doubleQuoteCharPred)
      (concatP charactersP (expectChar doubleQuoteCharPred)) s current with
  | .error e => .error (e.addReason (some current) "String")
  | .ok (out, pos) =>
    match out.2.1 with
    | .A cs => .ok (cs, pos)
    | .B _ => .ok ([], pos)

/-- `type JsonObject = Vec<(Vec<char>, JsonValue)>` and
`enum JsonValue` (json.rs). -/
inductive JsonValue where
  | Object (members : List (List Char × JsonValue))
  | Array (elements : List JsonValue)
  | String (chars : List Char)
  | Number (n : NumberValue)
  | Boolean (b : Bool)
  | Null

/-! The recursive grammar rules (json.rs). Rust's recursion is bounded in
practice by the nesting depth of the document (each Value→Value cycle
consumes at least one bracket); the embedding makes this explicit with a
fuel argument, decremented at each rule-to-rule call, and entry points
are instantiated with more fuel than any input of that length can use. -/

mutual

/-- `Member` (json.rs): whitespace, String key, whitespace, a literal
`:` checked by hand (errors of that step tagged "Member" at the member's
start, the mismatch error itself positioned after the read character),
then an Element value. All other sub-errors propagate untouched. -/
def memberP : Nat → P (List Char × JsonValue)
  | 0, _, current => .error (errorAt current "OutOfFuel")
  | fuel + 1, s, current =>
    match whitespaceP s current with
    | .error e => .error e
    | .ok (_, next) =>
      match stringP s next with
      | .error e => .error e
      | .ok (key, next) =>
        match whitespaceP s next with
        | .error e => .error e
        | .ok (_, next) =>
          match inputNext s next with
          | .error e => .error (e.addReason (some current) "Member")
          | .ok (c, next2) =>
            if c = ':' then
              match elementP fuel s next2 with
              | .error e => .error e
              | .ok (value, next3) => .ok ((key, value), next3)
            else
              .error ((errorAt next2 "Character").addReason (some current)
                "Member")

/-- `Element` (json.rs): whitespace, Value, whitespace; all sub-errors
propagate untouched. -/
def elementP : Nat → P JsonValue
  | 0, _, current => .error (errorAt current "OutOfFuel")
  | fuel + 1, s, current =>
    match whitespaceP s current with
    | .error e => .error e
    | .ok (_, next) =>
      match valueP fuel s next with
      | .error e => .error e
      | .ok (output, next) =>
        match whitespaceP s next with
        | .error e => .error e
        | .ok (_, next) => .ok (output, next)

/-- `Value` (json.rs): try Object, Array, String, Number in order
(discarding their errors), then a 4-character lookahead for `null` /
`true`, then a 5-character lookahead for `false`; the `next_range`
errors propagate untouched, and if everything fails the error is a fresh
"Value" trail at the start position. -/
def valueP : Nat → P JsonValue
  | 0, _, current => .error (errorAt current "OutOfFuel")
  | fuel + 1, s, current =>
    match objectP fuel s current with
    | .ok (o, next) => .ok (.Object o, next)
    | .error _ =>
      match arrayP fuel s current with
      | .ok (o, next) => .ok (.Array o, next)
      | .error _ =>
        match stringP s current with
        | .ok (o, next) => .ok (.String o, next)
        | .error _ =>
          match numberP s current with
          | .ok (o, next) => .ok (.Number o, next)
          | .error _ =>
            match inputNextRange s current 4 with
            | .error e => .error e
            | .ok (v4, next4) =>
              if v4 = "null".toList then .ok (.Null, next4)
              else if v4 = "true".toList then .ok (.Boolean true, next4)
              else
                match inputNextRange s current 5 with
                | .error e => .error e
                | .ok (v5, next5) =>
                  if v5 = "false".toList then .ok (.Boolean false, next5)
                  else .error (errorAt current "Value")

/-- `Object` (json.rs): `\x7b`, then `OneOf<Members, Whitespace>` (an
empty object falls through to the Whitespace branch and yields the empty
member list), then `\x7d`; sub-errors propagate untouched. -/
def objectP : Nat → P (List (List Char × JsonValue))
  | 0, _, current => .error (errorAt current "OutOfFuel")
  | fuel + 1, s, current =>
    match expectChar openCurlyCharPred s current with
    | .error e => .error e
    | .ok (_, next) =>
      match oneOfP (membersP fuel) whitespaceP s next with
      | .error e => .error e
      | .ok (output, next) =>
        match expectChar closeCurlyCharPred s next with
        | .error e => .error e
        | .ok (_, next) =>
          match output with
          | .A a => .ok (a, next)
          | .B _ => .ok ([], next)

/-- `Members` (json.rs): one Member, then zero-or-more of
(`,` Member), flattened in encounter order; sub-errors propagate
untouched. -/
def membersP : Nat → P (List (List Char × JsonValue))
  | 0, _, current => .error (errorAt current "OutOfFuel")
  | fuel + 1, s, current =>
    match memberP fuel s current with
    | .error e => .error e
    | .ok (output, next) =>
      match zeroOrMoreP (concatP (expectChar commaCharPred) (memberP fuel))
          s next with
      | .error e => .error e
      | .ok (rest, next) =>
        match rest with
        | .A rest => .ok (output :: rest.map (fun x => x.2), next)
        | .B _ => .ok ([output], next)

/-- `Elements` (json.rs): one Element, then zero-or-more of
(`,` Element), flattened; sub-errors propagate untouched. -/
def elementsP : Nat → P (List JsonValue)
  | 0, _, current => .error (errorAt current "OutOfFuel")
  | fuel + 1, s, current =>
    match elementP fuel s current with
    | .error e => .error e
    | .ok (output, next) =>
      match zeroOrMoreP (concatP (expectChar commaCharPred) (elementP fuel))
          s next with
      | .error e => .error e
      | .ok (rest, next) =>
        match rest with
        | .A rest => .ok (output :: rest.map (fun x => x.2), next)
        | .B _ => .ok ([output], next)

/-- `Array` (json.rs): `[`, Elements, `]`; note there is no empty
alternative — Elements demands at least one Element. Sub-errors
propagate untouched. -/
def arrayP : Nat → P (List JsonValue)
  | 0, _, current => .error (errorAt current "OutOfFuel")
  | fuel + 1, s, current =>
    match expectChar openSquareCharPred s current with
    | .error e => .error e
    | .ok (_, next) =>
      match elementsP fuel s next with
      | .error e => .error e
      | .ok (res, next) =>
        match expectChar closeSquareCharPred s next with
        | .error e => .error e
        | .ok (_, next) => .ok (res, next)

end

/-- `Json = Element` (json.rs): the top-level entry point, run with fuel
amply above the recursion depth any input of this length can reach. -/
def jsonParse (s : List Char) :
    Except SimpleError (JsonValue × SimplePosition) :=
  elementP (8 * s.length + 16) s ⟨0, 0, 0⟩

/-! Observation helpers used by the theorems. -/

/-- Whether a parse result is an error. -/
def isErr {α : Type} : Except SimpleError α → Bool
  | .error _ => true
  | .ok _ => false

/-- The reason labels of a failed parse, in trail order (innermost
first); empty for successes. -/
def errLabels {α : Type} : Except SimpleError α → List String
  | .error e => e.reasons.map (fun x => x.2)
  | .ok _ => []

/-- Whether a parse result is the modelled `unwrap` panic. -/
def isPanicRes {α : Type} : Except SimpleError α → Bool
  | .error e => decide (e = panicError)
  | .ok _ => false

/-! Supporting lemmas. -/

theorem charUtf8Size_ascii {c : Char} (h : c.toNat < 128) :
    charUtf8Size c = 1 := by
  unfold charUtf8Size
  rw [if_pos (by omega)]

theorem dropBytes_ascii {s : List Char} (h : ∀ c ∈ s, c.toNat < 128) :
    ∀ n, dropBytes s n = if n ≤ s.length then some (s.drop n) else none := by
  induction s with
  | nil =>
    intro n
    cases n with
    | zero => simp [dropBytes]
    | succ m => simp [dropBytes]
  | cons c cs ih =>
    intro n
    cases n with
    | zero => simp [dropBytes]
    | succ m =>
      have hc : charUtf8Size c = 1 := charUtf8Size_ascii (h c (by simp))
      have hcs : ∀ x ∈ cs, x.toNat < 128 := fun x hx => h x (by simp [hx])
      simp only [dropBytes, hc]
      rw [if_pos (by omega)]
      have : m + 1 - 1 = m := by omega
      rw [this, ih hcs m]
      by_cases hm : m ≤ cs.length
      · rw [if_pos hm, if_pos (by simp; omega)]
        simp
      · rw [if_neg hm, if_neg (by simp; omega)]

theorem takeBytes_ascii {s : List Char} (h : ∀ c ∈ s, c.toNat < 128) :
    ∀ n, takeBytes s n = if n ≤ s.length then some (s.take n) else none := by
  induction s with
  | nil =>
    intro n
    cases n with
    | zero => simp [takeBytes]
    | succ m => simp [takeBytes]
  | cons c cs ih =>
    intro n
    cases n with
    | zero => simp [takeBytes]
    | succ m =>
      have hc : charUtf8Size c = 1 := charUtf8Size_ascii (h c (by simp))
      have hcs : ∀ x ∈ cs, x.toNat < 128 := fun x hx => h x (by simp [hx])
      simp only [takeBytes, hc]
      rw [if_pos (by omega)]
      have : m + 1 - 1 = m := by omega
      rw [this, ih hcs m]
      by_cases hm : m ≤ cs.length
      · rw [if_pos hm, if_pos (by simp; omega)]
        simp
      · rw [if_neg hm, if_neg (by simp; omega)]
        rfl

theorem strGet_ascii {s : List Char} (h : ∀ c ∈ s, c.toNat < 128)
    (a n : Nat) :
    strGet s a (a + n) =
      if a + n ≤ s.length then some ((s.drop a).take n) else none := by
  unfold strGet
  rw [if_pos (Nat.le_add_right a n), dropBytes_ascii h a]
  by_cases ha : a ≤ s.length
  · rw [if_pos ha]
    have hdrop : ∀ c ∈ s.drop a, c.toNat < 128 :=
      fun c hc => h c (List.drop_subset a s hc)
    simp only [Option.some_bind, Nat.add_sub_cancel_left]
    rw [takeBytes_ascii hdrop n, List.length_drop]
    by_cases hn : a + n ≤ s.length
    · rw [if_pos (by omega), if_pos hn]
    · rw [if_neg (by omega), if_neg hn]
  · rw [if_neg ha, if_neg (by omega)]
    simp

theorem expectChar_ok_pred {pred : Char → Bool} {s : List Char}
    {pos next : SimplePosition} {c : Char}
    (h : expectChar pred s pos = .ok (c, next)) : pred c = true := by
  unfold expectChar at h
  split at h
  · exact absurd h (by simp)
  · split at h
    · next hp =>
      simp only [Except.ok.injEq, Prod.mk.injEq] at h
      obtain ⟨h1, -⟩ := h
      rw [← h1]; exact hp
    · exact absurd h (by simp)

theorem concatP_ok_cases {α β : Type} {p : P α} {q : P β} {s : List Char}
    {pos next : SimplePosition} {a : α} {b : β}
    (h : concatP p q s pos = .ok ((a, b), next)) :
    ∃ mid, p s pos = .ok (a, mid) ∧ q s mid = .ok (b, next) := by
  unfold concatP at h
  split at h
  · exact absurd h (by simp)
  · next a0 mid h1 =>
    split at h
    · exact absurd h (by simp)
    · next b0 next0 h2 =>
      simp only [Except.ok.injEq, Prod.mk.injEq] at h
      obtain ⟨⟨ha, hb⟩, hnext⟩ := h
      subst ha; subst hb; subst hnext
      exact ⟨mid, h1, h2⟩

theorem oneOfP_ok_cases {α β : Type} {p : P α} {q : P β} {s : List Char}
    {pos next : SimplePosition} {out : Either α β}
    (h : oneOfP p q s pos = .ok (out, next)) :
    (∃ a, out = .A a ∧ p s pos = .ok (a, next)) ∨
      (∃ b, out = .B b ∧ q s pos = .ok (b, next)) := by
  unfold oneOfP at h
  split at h
  · next a0 p0 h1 =>
    simp only [Except.ok.injEq, Prod.mk.injEq] at h
    obtain ⟨ho, hp⟩ := h
    subst hp
    exact Or.inl ⟨a0, ho.symm, h1⟩
  · next h1 =>
    split at h
    · next b0 p0 h2 =>
      simp only [Except.ok.injEq, Prod.mk.injEq] at h
      obtain ⟨ho, hp⟩ := h
      subst hp
      exact Or.inr ⟨b0, ho.symm, h2⟩
    · exact absurd h (by simp)

theorem oneOrMoreAux_mem {α : Type} {p : P α} {s : List Char}
    {pred : α → Prop}
    (hp : ∀ pos a next, p s pos = .ok (a, next) → pred a) :
    ∀ fuel acc pos, (∀ a ∈ acc, pred a) →
      ∀ a ∈ (oneOrMoreAux p s fuel acc pos).1, pred a := by
  intro fuel
  induction fuel with
  | zero => intro acc pos hacc; simpa [oneOrMoreAux] using hacc
  | succ m ih =>
    intro acc pos hacc a ha
    rw [oneOrMoreAux] at ha
    cases hps : p s pos with
    | ok o =>
      obtain ⟨o0, next⟩ := o
      rw [hps] at ha
      refine ih (acc ++ [o0]) next ?_ a ha
      intro x hx
      rcases List.mem_append.mp hx with hx | hx
      · exact hacc x hx
      · rw [List.mem_singleton.mp hx]; exact hp pos o0 next hps
    | error e => rw [hps] at ha; exact hacc a ha

theorem oneOrMoreP_mem {α : Type} {p : P α} {s : List Char}
    {pos next : SimplePosition} {l : List α} {pred : α → Prop}
    (hp : ∀ pos a next, p s pos = .ok (a, next) → pred a)
    (h : oneOrMoreP p s pos = .ok (l, next)) : ∀ a ∈ l, pred a := by
  unfold oneOrMoreP at h
  cases h1 : p s pos with
  | error e => rw [h1] at h; exact absurd h (by simp)
  | ok o =>
    obtain ⟨o0, p0⟩ := o
    rw [h1] at h
    have h2 : oneOrMoreAux p s (s.length + 1) [o0] p0 = (l, next) :=
      Except.ok.inj h
    have hl : l = (oneOrMoreAux p s (s.length + 1) [o0] p0).1 := by
      rw [h2]
    rw [hl]
    refine oneOrMoreAux_mem hp (s.length + 1) [o0] p0 ?_
    intro x hx
    rw [List.mem_singleton.mp hx]
    exact hp pos o0 p0 h1

theorem digit_toDigit_isSome {c : Char} (h : digitCharPred c = true) :
    (toDigit c 10).isSome := by
  have hv : 48 ≤ c.toNat ∧ c.toNat ≤ 57 := by
    simpa [digitCharPred] using h
  unfold toDigit
  rw [if_pos hv, if_pos (by omega)]
  rfl

theorem oneToNine_toDigit_isSome {c : Char} (h : oneToNineCharPred c = true) :
    (toDigit c 10).isSome := by
  refine digit_toDigit_isSome ?_
  have hv : 49 ≤ c.toNat ∧ c.toNat ≤ 57 := by
    simpa [oneToNineCharPred] using h
  simp [digitCharPred]
  omega

theorem hex_toDigit_isSome {c : Char} (h : hexCharPred c = true) :
    (toDigit c 16).isSome := by
  have hv : (48 ≤ c.toNat ∧ c.toNat ≤ 57) ∨ (97 ≤ c.toNat ∧ c.toNat ≤ 102) ∨
      (65 ≤ c.toNat ∧ c.toNat ≤ 70) := by
    simpa [hexCharPred, or_assoc] using h
  unfold toDigit
  rcases hv with hv | hv | hv
  · rw [if_pos hv, if_pos (by omega)]; rfl
  · rw [if_neg (by omega), if_pos (by omega), if_pos (by omega)]; rfl
  · rw [if_neg (by omega), if_neg (by omega), if_pos (by omega),
      if_pos (by omega)]; rfl

theorem accumDigits_isSome {cs : List Char}
    (h : ∀ c ∈ cs, (toDigit c 10).isSome) :
    ∀ init, (accumDigits init cs).isSome := by
  induction cs with
  | nil => intro init; simp [accumDigits]
  | cons c cs ih =>
    intro init
    have hc := h c (by simp)
    cases hd : toDigit c 10 with
    | none => rw [hd] at hc; exact absurd hc (by simp)
    | some d =>
      simp only [accumDigits, hd]
      exact ih (fun x hx => h x (by simp [hx])) (init * 10 + d)

theorem addReason_ne_panicError (e : SimpleError) (p : Option SimplePosition)
    (r : String) (hr : r ≠ "panic: to_digit unwrap") :
    e.addReason p r ≠ panicError := by
  intro h
  have h2 : e.reasons ++ [(p, r)] =
      [(none, "panic: to_digit unwrap")] := congrArg SimpleError.reasons h
  have h3 : (e.reasons ++ [(p, r)]).getLast? = some (p, r) :=
    List.getLast?_concat _
  rw [h2] at h3
  simp at h3
  exact hr h3.2.symm

theorem digitsP_mem {s : List Char} {pos next : SimplePosition}
    {l : List Char} (h : digitsP s pos = .ok (l, next)) :
    ∀ c ∈ l, digitCharPred c = true := by
  refine oneOrMoreP_mem ?_ h
  intro pos a next h
  exact expectChar_ok_pred h

/-! Claim theorems. -/

/-- C1: parsing "-12.340e2" with the Number rule yields
NumberValue with integer -12, fraction 340, fraction_length 3 and
exponent 2, as claimed; but the documented conversion formula
(integer + fraction / 10^fraction_length) * 10^exponent — computed here
exactly over ℚ — yields -1166, not -1234: the fractional part is added
with a positive sign regardless of the integer part's sign. -/
theorem c1_negative_number_eval :
    numberP ("-12.340e2".toList) ⟨0, 0, 0⟩ =
      .ok (⟨-12, 340, 3, 2⟩, ⟨9, 0, 9⟩) ∧
    NumberValue.intoF64 ⟨-12, 340, 3, 2⟩ = -1166 ∧
    decide (NumberValue.intoF64 ⟨-12, 340, 3, 2⟩ = -1234) = false := by
  refine ⟨rfl, ?_, ?_⟩
  · norm_num [NumberValue.intoF64]
  · rw [decide_eq_false_iff_not]
    norm_num [NumberValue.intoF64]

/-- C2: parsing "\x7b\x7d" with the Value rule yields an empty Object as
claimed, but parsing "[]" FAILS (with an out-of-bounds error raised while
the Value rule attempted the 4-character literal lookahead): Elements
demands at least one Element and Array, unlike Object, has no empty
alternative. -/
theorem c2_empty_object_empty_array_eval :
    valueP 32 ("\x7b\x7d".toList) ⟨0, 0, 0⟩ =
      .ok (.Object [], ⟨2, 0, 2⟩) ∧
    isErr (valueP 32 ("[]".toList) ⟨0, 0, 0⟩) = true ∧
    jsonParse ("[]".toList) = .error (errorAt ⟨0, 0, 0⟩ "Out of bounds") :=
  ⟨rfl, rfl, rfl⟩

/-- C3: parsing the string literal containing the escape \u0041 yields
the single character U+0401, not 'A': the four hex nibbles are combined
with byte-sized shifts (24/16/8/0) instead of nibble-sized ones, so
0,0,4,1 becomes 4*256+1 = 1025. The validity check on the combined value
does hold: a \uD800 escape (combined to 0x0D080000, an invalid scalar
value) makes the String rule fail. -/
theorem c3_unicode_escape_eval :
    stringP ("\"\\u0041\"".toList) ⟨0, 0, 0⟩ =
      .ok ([Char.ofNat 1025], ⟨8, 0, 8⟩) ∧
    decide ((Char.ofNat 1025 : Char) = 'A') = false ∧
    isErr (stringP ("\"\\uD800\"".toList) ⟨0, 0, 0⟩) = true :=
  ⟨rfl, by decide, rfl⟩

/-- C4 counterexample: parsing the truncated input consisting of an open
curly bracket, a quoted "a" and a colon fails, but the returned error's
trail is exactly the single label "Value" at position 0: it contains no
label referencing the Member rule. -/
theorem c4_counterexample :
    errLabels (jsonParse ("\x7b\"a\":".toList)) = ["Value"] ∧
    decide ("Member" ∈ errLabels (jsonParse ("\x7b\"a\":".toList))) =
      false := by
  have h : errLabels (jsonParse ("\x7b\"a\":".toList)) = ["Value"] := rfl
  refine ⟨h, ?_⟩
  rw [h]
  decide

/-- C4 amended: parsing the truncated input fails, but the returned
error's whole trail is the single entry (position 0, "Value"),
referencing neither the Member rule nor any other enclosing rule: on
this input every failing rule between the deepest failure and the
top-level call re-raises the child error unchanged or discards it, and
Value, with all four tried branches failed and neither literal matched,
raises a fresh "Value" error at its start position. -/
theorem c4_error_trail :
    jsonParse ("\x7b\"a\":".toList) =
      .error ⟨[(some ⟨0, 0, 0⟩, "Value")]⟩ := rfl

/-- C5 counterexample: on the two-character input "é!" (é = U+00E9,
2 UTF-8 bytes), next_range at index 0 with n = 2 SUCCEEDS but returns
only the one character é (the byte range 0..2 covers just é) with the
position advanced past that single character — not "exactly the next 2
characters" although 2 characters remain. -/
theorem c5_counterexample :
    inputNextRange ['é', '!'] ⟨0, 0, 0⟩ 2 = .ok (['é'], ⟨1, 0, 1⟩) ∧
    decide ((['é'] : List Char).length = 2) = false ∧
    (⟨0, 0, 0⟩ : SimplePosition).index + 2 ≤ (['é', '!'] : List Char).length :=
  ⟨rfl, by decide, by decide⟩

/-- C5 amended: for ASCII-only input (every character below U+0080, so
byte offsets and character counts coincide), next_range(pos, n) succeeds
and returns exactly the next n characters, with the position advanced
past them, whenever at least n characters remain from pos.index, and
fails with an out-of-bounds error exactly when fewer than n remain. In
general the position's index is used as a BYTE offset and n as a BYTE
count into the UTF-8 text, so for non-ASCII input the result can be
shorter than n characters or an error despite n characters remaining. -/
theorem c5_next_range_ascii (s : List Char) (pos : SimplePosition) (n : Nat)
    (hascii : ∀ c ∈ s, c.toNat < 128) :
    (pos.index + n ≤ s.length →
      inputNextRange s pos n =
        .ok ((s.drop pos.index).take n,
          ((s.drop pos.index).take n).foldl SimplePosition.next pos) ∧
      ((s.drop pos.index).take n).length = n) ∧
    (s.length < pos.index + n →
      inputNextRange s pos n = .error (errorAt pos "Out of bounds")) := by
  constructor
  · intro h
    constructor
    · unfold inputNextRange
      rw [strGet_ascii hascii pos.index n, if_pos h]
    · rw [List.length_take, List.length_drop]
      omega
  · intro h
    unfold inputNextRange
    rw [strGet_ascii hascii pos.index n, if_neg (by omega)]

/-- C5 witness: the amended theorem applied to the ASCII input "null" at
position 0 with n = 4. -/
theorem c5_next_range_ascii_witness :
    inputNextRange ("null".toList) ⟨0, 0, 0⟩ 4 =
      .ok ((("null".toList).drop 0).take 4,
        ((("null".toList).drop 0).take 4).foldl SimplePosition.next
          ⟨0, 0, 0⟩) :=
  ((c5_next_range_ascii ("null".toList) ⟨0, 0, 0⟩ 4 (by decide)).1
    (by decide)).1

/-- C6: parsing an object with the duplicate key "a" bound first to 1 and
then to 2 yields an Object whose member sequence has exactly the two
entries, in encounter order, both keyed "a" — duplicates are preserved,
not merged. -/
theorem c6_duplicate_keys_eval :
    valueP 120 ("\x7b\"a\":1,\"a\":2\x7d".toList) ⟨0, 0, 0⟩ =
      .ok (.Object [(['a'], .Number ⟨1, 0, 0, 0⟩),
        (['a'], .Number ⟨2, 0, 0, 0⟩)], ⟨13, 0, 13⟩) := rfl

/-- C7: for every pair of sub-parsers, input and position, OneOf first
attempts the first parser at the position; if it fails it attempts the
second at the same original position; it succeeds with the successful
branch's output tagged A or B; and if both fail the result is the second
branch's error augmented with the "OneOf" reason at the original
position, the first branch's error being discarded. -/
theorem c7_one_of_spec {α β : Type} (p : P α) (q : P β) (s : List Char)
    (pos : SimplePosition) :
    (∀ a next, p s pos = .ok (a, next) →
      oneOfP p q s pos = .ok (.A a, next)) ∧
    (∀ e b next, p s pos = .error e → q s pos = .ok (b, next) →
      oneOfP p q s pos = .ok (.B b, next)) ∧
    (∀ e₁ e₂, p s pos = .error e₁ → q s pos = .error e₂ →
      oneOfP p q s pos = .error (e₂.addReason (some pos) "OneOf")) := by
  refine ⟨?_, ?_, ?_⟩
  · intro a next h
    unfold oneOfP
    rw [h]
  · intro e b next h1 h2
    unfold oneOfP
    rw [h1, h2]
  · intro e₁ e₂ h1 h2
    unfold oneOfP
    rw [h1, h2]

/-- C7 witness: both branches fail on the input "x" (a digit was
expected), and the returned error is the second branch's "ExpectChar"
error with the "OneOf" reason appended. -/
theorem c7_one_of_spec_witness :
    oneOfP (expectChar oneToNineCharPred) (expectChar digitCharPred)
      ['x'] ⟨0, 0, 0⟩ =
      .error ((errorAt ⟨0, 0, 0⟩ "ExpectChar").addReason
        (some ⟨0, 0, 0⟩) "OneOf") :=
  (c7_one_of_spec (expectChar oneToNineCharPred) (expectChar digitCharPred)
    ['x'] ⟨0, 0, 0⟩).2.2 (errorAt ⟨0, 0, 0⟩ "ExpectChar")
    (errorAt ⟨0, 0, 0⟩ "ExpectChar") rfl rfl

/-- C8: for every input and position, the Value rule tries Object, then
Array, then String, then Number, in that fixed priority order, returning
the first success; when all four fail it reads a fixed 4-character
lookahead, yielding Null on "null" and Boolean true on "true"; otherwise
it reads a fixed 5-character lookahead, yielding Boolean false on
"false"; and it fails when none match (with the 4- or 5-character read's
own error when that read fails). The literal checks perform no boundary
check, so on the input "nullable" Value succeeds with Null at end index
4, leaving the remaining 4 of the 8 characters ("able") unconsumed. -/
theorem c8_value_priority_and_nullable :
    (∀ fuel s pos,
      (∀ o next, objectP fuel s pos = .ok (o, next) →
        valueP (fuel + 1) s pos = .ok (.Object o, next)) ∧
      (∀ e o next, objectP fuel s pos = .error e →
        arrayP fuel s pos = .ok (o, next) →
        valueP (fuel + 1) s pos = .ok (.Array o, next)) ∧
      (∀ e₁ e₂ o next, objectP fuel s pos = .error e₁ →
        arrayP fuel s pos = .error e₂ →
        stringP s pos = .ok (o, next) →
        valueP (fuel + 1) s pos = .ok (.String o, next)) ∧
      (∀ e₁ e₂ e₃ o next, objectP fuel s pos = .error e₁ →
        arrayP fuel s pos = .error e₂ →
        stringP s pos = .error e₃ →
        numberP s pos = .ok (o, next) →
        valueP (fuel + 1) s pos = .ok (.Number o, next)) ∧
      (∀ e₁ e₂ e₃ e₄ v4 next4, objectP fuel s pos = .error e₁ →
        arrayP fuel s pos = .error e₂ →
        stringP s pos = .error e₃ →
        numberP s pos = .error e₄ →
        inputNextRange s pos 4 = .ok (v4, next4) →
        (v4 = "null".toList →
          valueP (fuel + 1) s pos = .ok (.Null, next4)) ∧
        (v4 = "true".toList →
          valueP (fuel + 1) s pos = .ok (.Boolean true, next4)) ∧
        (v4 ≠ "null".toList → v4 ≠ "true".toList →
          (∀ v5 next5, inputNextRange s pos 5 = .ok (v5, next5) →
            (v5 = "false".toList →
              valueP (fuel + 1) s pos = .ok (.Boolean false, next5)) ∧
            (v5 ≠ "false".toList →
              valueP (fuel + 1) s pos = .error (errorAt pos "Value"))) ∧
          (∀ e₅, inputNextRange s pos 5 = .error e₅ →
            valueP (fuel + 1) s pos = .error e₅))) ∧
      (∀ e₁ e₂ e₃ e₄ e₅, objectP fuel s pos = .error e₁ →
        arrayP fuel s pos = .error e₂ →
        stringP s pos = .error e₃ →
        numberP s pos = .error e₄ →
        inputNextRange s pos 4 = .error e₅ →
        valueP (fuel + 1) s pos = .error e₅)) ∧
    valueP 32 ("nullable".toList) ⟨0, 0, 0⟩ = .ok (.Null, ⟨4, 0, 4⟩) ∧
    ("nullable".toList).length = 8 := by
  refine ⟨?_, rfl, rfl⟩
  intro fuel s pos
  refine ⟨?_, ?_, ?_, ?_, ?_, ?_⟩
  · intro o next h
    simp only [valueP, h]
  · intro e o next h1 h2
    simp only [valueP, h1, h2]
  · intro e₁ e₂ o next h1 h2 h3
    simp only [valueP, h1, h2, h3]
  · intro e₁ e₂ e₃ o next h1 h2 h3 h4
    simp only [valueP, h1, h2, h3, h4]
  · intro e₁ e₂ e₃ e₄ v4 next4 h1 h2 h3 h4 h5
    refine ⟨?_, ?_, ?_⟩
    · intro hv
      subst hv
      simp only [valueP, h1, h2, h3, h4, h5]
      rw [if_pos trivial]
    · intro hv
      subst hv
      simp only [valueP, h1, h2, h3, h4, h5]
      rw [if_neg (by decide), if_pos trivial]
    · intro hvn hvt
      constructor
      · intro v5 next5 h6
        constructor
        · intro hv5
          subst hv5
          simp only [valueP, h1, h2, h3, h4, h5, h6]
          rw [if_neg hvn, if_neg hvt, if_pos trivial]
        · intro hv5
          simp only [valueP, h1, h2, h3, h4, h5, h6]
          rw [if_neg hvn, if_neg hvt, if_neg hv5]
      · intro e₅ h6
        simp only [valueP, h1, h2, h3, h4, h5, h6]
        rw [if_neg hvn, if_neg hvt]
  · intro e₁ e₂ e₃ e₄ e₅ h1 h2 h3 h4 h5
    simp only [valueP, h1, h2, h3, h4, h5]

/-- C8 witness: the dispatch theorem applied concretely — the Object
branch on an empty object input, the "true" 4-character literal branch,
and the "false" 5-character literal branch (where the first four
characters "fals" match neither "null" nor "true"). -/
theorem c8_value_priority_witness :
    valueP 32 ("\x7b\x7d".toList) ⟨0, 0, 0⟩ =
      .ok (.Object [], ⟨2, 0, 2⟩) ∧
    valueP 32 ("true".toList) ⟨0, 0, 0⟩ =
      .ok (.Boolean true, ⟨4, 0, 4⟩) ∧
    valueP 32 ("false".toList) ⟨0, 0, 0⟩ =
      .ok (.Boolean false, ⟨5, 0, 5⟩) := by
  refine ⟨?_, ?_, ?_⟩
  · exact (c8_value_priority_and_nullable.1 31 ("\x7b\x7d".toList)
      ⟨0, 0, 0⟩).1 [] ⟨2, 0, 2⟩ rfl
  · exact ((c8_value_priority_and_nullable.1 31 ("true".toList)
      ⟨0, 0, 0⟩).2.2.2.2.1 _ _ _ _ _ _ rfl rfl rfl rfl rfl).2.1 rfl
  · exact ((((c8_value_priority_and_nullable.1 31 ("false".toList)
      ⟨0, 0, 0⟩).2.2.2.2.1 _ _ _ _ _ _ rfl rfl rfl rfl rfl).2.2
      (by decide) (by decide)).1 _ _ rfl).1 rfl

/-- C9: the parser is a pure function of (input, position): running the
top-level Json/Element rule twice on the same pair yields identical
results, on success and on failure alike. -/
theorem c9_parse_deterministic :
    (∀ s r₁ r₂, jsonParse s = r₁ → jsonParse s = r₂ → r₁ = r₂) ∧
    (∀ fuel s pos r₁ r₂, elementP fuel s pos = r₁ →
      elementP fuel s pos = r₂ → r₁ = r₂) :=
  ⟨fun _ _ _ h₁ h₂ => h₁.symm.trans h₂,
   fun _ _ _ _ _ h₁ h₂ => h₁.symm.trans h₂⟩

/-- C9 witness: determinism applied to the concrete input "1". -/
theorem c9_parse_deterministic_witness :
    jsonParse ("1".toList) = jsonParse ("1".toList) :=
  c9_parse_deterministic.1 ("1".toList) _ _ rfl rfl

/-- C10: the `to_digit(10).unwrap()` / `to_digit(16).unwrap()` calls in
PositiveInteger, Fraction, Exponent and Hex never panic: every character
they receive was accepted by the corresponding
OneToNineChar/DigitChar/HexChar predicate in ExpectChar, which guarantees
`to_digit` in that base returns a value, so the modelled panic outcome is
unreachable for every input and position. -/
theorem c10_to_digit_unwrap_unreachable :
    ∀ s pos, isPanicRes (positiveIntegerP s pos) = false ∧
      isPanicRes (fractionP s pos) = false ∧
      isPanicRes (exponentP s pos) = false ∧
      isPanicRes (hexP s pos) = false := by
  intro s pos
  refine ⟨?_, ?_, ?_, ?_⟩
  · unfold positiveIntegerP
    cases h : oneOfP (concatP (expectChar oneToNineCharPred) digitsP)
        (expectChar digitCharPred) s pos with
    | error e =>
      simp only [isPanicRes, decide_eq_false_iff_not]
      exact addReason_ne_panicError e _ _ (by decide)
    | ok o =>
      obtain ⟨out, pos'⟩ := o
      have hsome : (positiveIntegerBody out).isSome := by
        rcases oneOfP_ok_cases h with ⟨a, rfl, hA⟩ | ⟨b, rfl, hB⟩
        · obtain ⟨c, cs⟩ := a
          obtain ⟨mid, h1, h2⟩ := concatP_ok_cases hA
          have hc := oneToNine_toDigit_isSome (expectChar_ok_pred h1)
          obtain ⟨d, hd⟩ := Option.isSome_iff_exists.mp hc
          have hcs := digitsP_mem h2
          simp only [positiveIntegerBody, hd]
          exact accumDigits_isSome
            (fun x hx => digit_toDigit_isSome (hcs x hx)) d
        · exact digit_toDigit_isSome (expectChar_ok_pred hB)
      cases hb : positiveIntegerBody out with
      | none => rw [hb] at hsome; exact absurd hsome (by simp)
      | some v => simp only [isPanicRes, hb]
  · unfold fractionP
    cases h : zeroOrOneP (concatP (expectChar dotCharPred) digitsP)
        s pos with
    | error e =>
      simp only [isPanicRes, decide_eq_false_iff_not]
      exact addReason_ne_panicError e _ _ (by decide)
    | ok o =>
      obtain ⟨out, pos'⟩ := o
      have hsome : (fractionBody out).isSome := by
        rcases oneOfP_ok_cases h with ⟨a, rfl, hA⟩ | ⟨b, rfl, -⟩
        · obtain ⟨c, cs⟩ := a
          obtain ⟨mid, -, h2⟩ := concatP_ok_cases hA
          have hcs := digitsP_mem h2
          obtain ⟨v, hv⟩ := Option.isSome_iff_exists.mp
            (accumDigits_isSome
              (fun x hx => digit_toDigit_isSome (hcs x hx)) 0)
          simp [fractionBody, hv]
        · simp [fractionBody]
      cases hb : fractionBody out with
      | none => rw [hb] at hsome; exact absurd hsome (by simp)
      | some v => simp only [isPanicRes, hb]
  · unfold exponentP
    cases h : zeroOrOneP (concatP (expectChar eCharPred)
        (concatP signP digitsP)) s pos with
    | error e =>
      simp only [isPanicRes, decide_eq_false_iff_not]
      exact addReason_ne_panicError e _ _ (by decide)
    | ok o =>
      obtain ⟨out, pos'⟩ := o
      have hsome : (exponentBody out).isSome := by
        rcases oneOfP_ok_cases h with ⟨a, rfl, hA⟩ | ⟨b, rfl, -⟩
        · obtain ⟨c, sgcs⟩ := a
          obtain ⟨sg, cs⟩ := sgcs
          obtain ⟨mid, -, h2⟩ := concatP_ok_cases hA
          obtain ⟨mid2, -, h3⟩ := concatP_ok_cases h2
          have hcs := digitsP_mem h3
          obtain ⟨v, hv⟩ := Option.isSome_iff_exists.mp
            (accumDigits_isSome
              (fun x hx => digit_toDigit_isSome (hcs x hx)) 0)
          simp [exponentBody, hv]
        · simp [exponentBody]
      cases hb : exponentBody out with
      | none => rw [hb] at hsome; exact absurd hsome (by simp)
      | some v => simp only [isPanicRes, hb]
  · unfold hexP
    cases h : expectChar hexCharPred s pos with
    | error e =>
      simp only [isPanicRes, decide_eq_false_iff_not]
      exact addReason_ne_panicError e _ _ (by decide)
    | ok o =>
      obtain ⟨c, pos'⟩ := o
      have hsome := hex_toDigit_isSome (expectChar_ok_pred h)
      cases hb : toDigit c 16 with
      | none => rw [hb] at hsome; exact absurd hsome (by simp)
      | some v => simp only [isPanicRes, hb]

end SimpleJson2
